import Mathlib

/-!
Verification development for the RESPAWN checkpoint/restore daemon.

The Go sources are embedded shallowly:

* machine integers (`int`, `int64`) become `Int` or `Nat`;
* `time.Time` and `time.Duration` become `Int` nanosecond counts
  (`t.After u` is `u < t`, `t.Before u` is `t < u`, `time.Since t` is
  `now - t`, and the zero `time.Time` is `0`);
* the file system visible to `internal/checkpoint/storage.go` becomes an
  association list from path to byte contents, newest write first;
* the byte-level library transformations the storage layer delegates to
  (JSON marshalling from `encoding/json`, zstd compression, SHA-256)
  are opaque to the storage code itself, so they are parameters gathered
  in a `Codec` record;
* functions performing IO take their environment readings (detected
  processes, heartbeat file contents, clock values, process liveness,
  launch outcomes) as explicit arguments.
-/

set_option linter.unusedVariables false

namespace Respawn

/-- Go struct `ProcessInfo` from `internal/types/types.go`. -/
structure ProcessInfo where
  PID : Int
  Name : String
  ProcessName : String
  MemoryMB : Int
  WindowState : String
  IsRunning : Bool
deriving Repr, DecidableEq, Inhabited

/-- Go struct `LaunchResult` from `internal/types/types.go`; `LaunchTime`
is a `time.Time`, modelled as integer nanoseconds. -/
structure LaunchResult where
  AppName : String
  Success : Bool
  PID : Int
  LaunchTime : Int
  RetryCount : Nat
  ErrorMsg : String
deriving Repr, DecidableEq, Inhabited

/-- Go struct `Checkpoint` from the checkpoint manager (part_003). -/
structure Checkpoint where
  ID : String
  Timestamp : Int
  Processes : List ProcessInfo
  AppNames : List String
  IsCompressed : Bool
  FilePath : String
  FileSize : Nat
deriving Repr, DecidableEq, Inhabited

/-- Go struct `CheckpointMetadata` from `internal/checkpoint/storage.go`. -/
structure CheckpointMetadata where
  ID : String
  Timestamp : Int
  IsCompressed : Bool
  OriginalSize : Nat
  CompressedSize : Nat
  Checksum : String
  AppCount : Nat
  AppNames : List String
deriving Repr, DecidableEq, Inhabited

/-- Go struct `CheckpointList` from the checkpoint manager (part_003). -/
structure CheckpointList where
  Checkpoints : List Checkpoint
  LastUsed : String
  TotalCount : Nat
  CompressedCount : Nat
deriving Repr, DecidableEq, Inhabited

/-- Go struct `Storage` from `internal/checkpoint/storage.go`.  Only
`baseDir` matters to the file layout; the zstd encoder/decoder handles
live in the `Codec`. -/
structure Storage where
  baseDir : String
deriving Repr, DecidableEq

/-! ### The file system -/

/-- File contents, as a byte list. -/
abbrev Bytes := List Nat

/-- The files the storage layer can see: an association list from path to
contents, newest write first. -/
abbrev FS := List (String × Bytes)

/-- Model of `os.ReadFile` and `os.Open` followed by `io.ReadAll`:
`none` is a read error (in this model, the file does not exist). -/
def fsRead (fs : FS) (path : String) : Option Bytes :=
  (fs.find? (fun e => e.1 == path)).map (fun e => e.2)

/-- Model of `os.WriteFile` and `os.Create` followed by `Write`:
replaces the file. -/
def fsWrite (fs : FS) (path : String) (data : Bytes) : FS :=
  (path, data) :: fs.filter (fun e => !(e.1 == path))

/-- Model of `os.Remove`. -/
def fsRemove (fs : FS) (path : String) : FS :=
  fs.filter (fun e => !(e.1 == path))

/-- Model of `os.Stat` succeeding. -/
def fsExists (fs : FS) (path : String) : Bool :=
  (fsRead fs path).isSome

/-- The byte-level library transformations `storage.go` delegates to and
treats as opaque: JSON marshalling (`encoding/json`), SHA-256
(`crypto/sha256`, as the hex string `calculateChecksum` produces) and zstd
(`github.com/klauspost/compress/zstd`). -/
structure Codec where
  serializeCheckpoint : Checkpoint → Bytes
  deserializeCheckpoint : Bytes → Option Checkpoint
  marshalMetadata : CheckpointMetadata → Bytes
  unmarshalMetadata : Bytes → Option CheckpointMetadata
  checksum : Bytes → String
  compress : Bytes → Bytes
  decompress : Bytes → Option Bytes

/-! ### Path helpers -/

/-- Model of `filepath.Join` for the clean, non-empty components used here. -/
def filepathJoin (dir name : String) : String := dir ++ "/" ++ name

/-- Model of `fmt.Sprint` applied to two string operands.  Go's `Sprint` (unlike
`Sprintf`) concatenates its operands without interpreting format verbs,
and inserts no space between two adjacent string operands; so
`fmt.Sprint("%s.bin", id)` is the literal string `"%s.bin" + id`. -/
def fmtSprint2 (a b : String) : String := a ++ b

/-- Model of `strings.HasSuffix`, on the character lists backing the
strings. -/
def stringsHasSuffix (s suffix : String) : Bool :=
  suffix.data.isSuffixOf s.data

/-- The path `saveMetadata`, `loadMetadata` and `deleteMetadata` use in
`storage.go`: `filepath.Join(s.baseDir, "metadata", fmt.Sprintf("%s.json", id))`. -/
def metadataPath (s : Storage) (checkpointID : String) : String :=
  filepathJoin (filepathJoin s.baseDir "metadata") (checkpointID ++ ".json")

/-- Function `getCheckpointPath` of `storage.go` — compressed variant
first. -/
def getCheckpointPath (s : Storage) (fs : FS) (checkpointID : String) : String :=
  let compressedPath := filepathJoin s.baseDir (checkpointID ++ "_compressed.bin")
  if fsExists fs compressedPath then compressedPath
  else filepathJoin s.baseDir (checkpointID ++ ".bin")

/-! ### Metadata save/load -/

/-- Method `saveMetadata` of `storage.go`. -/
def saveMetadata (codec : Codec) (s : Storage) (fs : FS)
    (metadata : CheckpointMetadata) : FS :=
  fsWrite fs (metadataPath s metadata.ID) (codec.marshalMetadata metadata)

/-- Method `loadMetadata` of `storage.go`; `none` covers both the read
error and the unmarshal error. -/
def loadMetadata (codec : Codec) (s : Storage) (fs : FS)
    (checkpointID : String) : Option CheckpointMetadata :=
  match fsRead fs (metadataPath s checkpointID) with
  | none => none
  | some data => codec.unmarshalMetadata data

/-! ### SaveCheckpoint -/

/-- Method `SaveCheckpoint` of `storage.go`.  Returns the written file system, the
path reported to the caller and the byte count.  The file name is built
with `fmt.Sprint("%s.bin", checkpoint.ID)` — `Sprint`, not `Sprintf` — so
the record lands at `baseDir/%s.bin<ID>` (see `fmtSprint2`).  The metadata
struct literal omits `CompressedSize`, whose Go zero value is `0`; a
metadata write failure is only logged, so the write is modelled as
succeeding. -/
def saveCheckpoint (codec : Codec) (s : Storage) (fs : FS)
    (checkpoint : Checkpoint) : FS × String × Nat :=
  let fileName := fmtSprint2 "%s.bin" checkpoint.ID
  let filePath := filepathJoin s.baseDir fileName
  let data := codec.serializeCheckpoint checkpoint
  let fs1 := fsWrite fs filePath data
  let bytesWritten := data.length
  let metadata : CheckpointMetadata :=
    { ID := checkpoint.ID
      Timestamp := checkpoint.Timestamp
      IsCompressed := false
      OriginalSize := bytesWritten
      CompressedSize := 0
      Checksum := codec.checksum data
      AppCount := checkpoint.Processes.length
      AppNames := checkpoint.AppNames }
  let fs2 := saveMetadata codec s fs1 metadata
  (fs2, filePath, bytesWritten)

/-! ### Validation and loading -/

/-- The error cases of `validateCheckpointFile`. -/
inductive ValidateError where
  | notAccessible
  | emptyFile
  | checksumMismatch (expected actual : String)
deriving Repr, DecidableEq

/-- Method `validateCheckpointFile` of `storage.go`.  `none` means
validation passed; a metadata load failure only skips the checksum
check. -/
def validateCheckpointFile (codec : Codec) (s : Storage) (fs : FS)
    (checkpointID : String) : Option ValidateError :=
  let filePath := getCheckpointPath s fs checkpointID
  match fsRead fs filePath with
  | none => some .notAccessible
  | some data =>
    if data.length == 0 then some .emptyFile
    else
      match loadMetadata codec s fs checkpointID with
      | none => none
      | some metadata =>
        let actualChecksum := codec.checksum data
        if actualChecksum ≠ metadata.Checksum then
          some (.checksumMismatch metadata.Checksum actualChecksum)
        else none

/-- The error cases of `LoadCheckpoint`. -/
inductive LoadError where
  | validationFailed (e : ValidateError)
  | openFailed
  | decompressFailed
  | deserializeFailed
deriving Repr, DecidableEq

/-- Method `LoadCheckpoint` of `storage.go`. -/
def loadCheckpoint (codec : Codec) (s : Storage) (fs : FS)
    (checkpointID : String) : Except LoadError Checkpoint :=
  let filePath := getCheckpointPath s fs checkpointID
  let isCompressed := stringsHasSuffix filePath "_compressed.bin"
  match validateCheckpointFile codec s fs checkpointID with
  | some e => .error (.validationFailed e)
  | none =>
    match fsRead fs filePath with
    | none => .error .openFailed
    | some fileData =>
      let payload : Except LoadError Bytes :=
        if isCompressed then
          match codec.decompress fileData with
          | none => .error .decompressFailed
          | some decompressedData => .ok decompressedData
        else .ok fileData
      match payload with
      | .error e => .error e
      | .ok data =>
        match codec.deserializeCheckpoint data with
        | none => .error .deserializeFailed
        | some checkpoint =>
          .ok { checkpoint with FilePath := filePath, IsCompressed := isCompressed }

/-! ### CompressCheckpoint -/

/-- The error case of `CompressCheckpoint` (a failed read of the original
file; writes are modelled as succeeding, and a failed `os.Remove` is only
logged). -/
inductive CompressError where
  | readOriginalFailed
deriving Repr, DecidableEq

/-- Method `CompressCheckpoint` of `storage.go`.  The Go function mutates the
checkpoint through its pointer, so the updated checkpoint is returned
alongside the file system and the error. -/
def compressCheckpoint (codec : Codec) (s : Storage) (fs : FS)
    (checkpoint : Checkpoint) : FS × Checkpoint × Option CompressError :=
  if checkpoint.IsCompressed then (fs, checkpoint, none)
  else
    let originalPath := getCheckpointPath s fs checkpoint.ID
    let compressedPath := filepathJoin s.baseDir (checkpoint.ID ++ "_compressed.bin")
    match fsRead fs originalPath with
    | none => (fs, checkpoint, some .readOriginalFailed)
    | some originalData =>
      let compressedData := codec.compress originalData
      let fs1 := fsWrite fs compressedPath compressedData
      let fs2 :=
        match loadMetadata codec s fs1 checkpoint.ID with
        | some m =>
          saveMetadata codec s fs1
            { m with IsCompressed := true
                     CompressedSize := compressedData.length
                     Checksum := codec.checksum compressedData }
        | none => fs1
      let fs3 := fsRemove fs2 originalPath
      (fs3,
       { checkpoint with IsCompressed := true
                         FilePath := compressedPath
                         FileSize := compressedData.length },
       none)

/-! ### CheckpointManager: CreateCheckpoint -/

/-- Method `CreateCheckpoint` of the checkpoint manager (part_003).  The detected process list, the clock
reading and `time.Time.Format` are environment inputs; the error returns
for a failed detection happen before this logic runs. -/
def createCheckpoint (codec : Codec) (s : Storage) (fs : FS)
    (processes : List ProcessInfo) (timestamp : Int)
    (formatID : Int → String) : FS × Checkpoint :=
  let checkpointID := formatID timestamp
  let appNames := processes.map (fun proc => proc.Name)
  let checkpoint : Checkpoint :=
    { ID := checkpointID
      Timestamp := timestamp
      Processes := processes
      AppNames := appNames
      IsCompressed := false
      FilePath := ""
      FileSize := 0 }
  let r := saveCheckpoint codec s fs checkpoint
  (r.1, { checkpoint with FilePath := r.2.1, FileSize := r.2.2 })

/-! ### CheckpointManager: GetAvailableCheckpoints -/

/-- The comparator part_003 passes to `sort.Slice`:
`checkpoints[i].Timestamp.After(checkpoints[j].Timestamp)`. -/
def newerFirst (a b : Checkpoint) : Bool :=
  b.Timestamp < a.Timestamp

/-- One insertion step of the model of `sort.Slice`.  Go's `sort.Slice`
guarantees only a permutation ordered by `less`; it is not stable in
general (pdqsort, for slices of 12 or more elements), so tie order on
longer slices is not a property of the program.  This model picks one
determinization, insertion sort — which moves each element left past
exactly the elements it is `less` than, placing it after every earlier
element it is not `less` than.  That is the very code `sort.Slice` runs
on slices shorter than 12 elements, so the model is exact there (the
two-element counterexample below relies only on that range); the general
theorems proved about the model — permutation, `less`-sortedness and the
counts they imply — are exactly the documented `sort.Slice` contract and
hold for any permutation the real sort could pick, independent of the
determinization. -/
def sortSliceInsert (less : Checkpoint → Checkpoint → Bool)
    (a : Checkpoint) : List Checkpoint → List Checkpoint
  | [] => [a]
  | b :: l => if less b a then b :: sortSliceInsert less a l else a :: b :: l

/-- Model of `sort.Slice` on a checkpoint slice (see `sortSliceInsert`
for what it does and does not determine). -/
def sortSlice (less : Checkpoint → Checkpoint → Bool) :
    List Checkpoint → List Checkpoint
  | [] => []
  | a :: l => sortSliceInsert less a (sortSlice less l)

/-- Method `getLastUsedCheckpoint` (part_003) — the source returns the
empty string unconditionally. -/
def getLastUsedCheckpoint (checkpoints : List Checkpoint) : String := ""

/-- Method `GetAvailableCheckpoints` (part_003), taking the summaries
`LoadAllCheckpoints` produced as input. -/
def getAvailableCheckpoints (checkpoints : List Checkpoint) : CheckpointList :=
  let sorted := sortSlice newerFirst checkpoints
  let compressedCount := sorted.countP (fun cp => cp.IsCompressed)
  { Checkpoints := sorted
    LastUsed := getLastUsedCheckpoint sorted
    TotalCount := sorted.length
    CompressedCount := compressedCount }

/-! ### System state detection (`internal/system/logger.go`) -/

/-- Go enum `SystemState` from `internal/system/logger.go`. -/
inductive SystemState where
  | unknown
  | firstRun
  | normal
  | sleep
  | restart
  | crash
  | highCPU
  | lowBattery
  | aboutToSleep
deriving Repr, DecidableEq

/-- The heartbeat file as the detector's helpers observe it:
missing (`os.Stat` says not-exist), unreadable (`os.ReadFile` fails),
unparseable (`time.Parse` fails), or parsed to a time `t`. -/
inductive HeartbeatFile where
  | absent
  | unreadable
  | unparseable
  | parsed (t : Int)
deriving Repr, DecidableEq

/-- Helper `isFirstRun` of `logger.go` — true iff the heartbeat file does
not exist. -/
def isFirstRun : HeartbeatFile → Bool
  | .absent => true
  | _ => false

/-- Helper `getLastHeartbeatTime` of `logger.go` — a read error or a
parse error yields the zero `time.Time` (modelled as `0`). -/
def getLastHeartbeatTime : HeartbeatFile → Int
  | .absent => 0
  | .unreadable => 0
  | .unparseable => 0
  | .parsed t => t

/-- Nanoseconds in one `time.Minute`. -/
def nsPerMinute : Int := 60 * 1000000000

/-- Nanoseconds in `2 * time.Hour`. -/
def twoHours : Int := 120 * nsPerMinute

/-- Nanoseconds in `5 * time.Minute`. -/
def fiveMinutes : Int := 5 * nsPerMinute

/-- Method `DetectSystemState` of `logger.go`.  Environment readings are inputs:
the heartbeat file, the pair `getSystemUptime` returns (value and whether
it reported an error), the current clock `now`, and whether the pid
recorded in `monitor.pid` is still alive (`wasProcessRunning`). -/
def detectSystemState (hb : HeartbeatFile) (uptime : Int) (uptimeErr : Bool)
    (now : Int) (alive : Bool) : SystemState :=
  if isFirstRun hb then .firstRun
  else if uptimeErr then .unknown
  else
    let lastHeartbeat := getLastHeartbeatTime hb
    if lastHeartbeat = 0 then .restart
    else
      let timeSinceHeartbeat := now - lastHeartbeat
      if uptime < timeSinceHeartbeat then .restart
      else if twoHours < timeSinceHeartbeat ∧ timeSinceHeartbeat < uptime then .sleep
      else if alive = false ∧ fiveMinutes < timeSinceHeartbeat then .crash
      else .normal

/-- The classification exactly as the specification words it, for the
refinement check of claim C2: no heartbeat record → FirstRun; record
unreadable or unparseable → Restart; `u < g` → Restart; `g >` 2 hours and
`u > g` → Sleep; previous pid dead and `g >` 5 minutes → Crash; otherwise
Normal (`g` being the elapsed time since the parsed heartbeat). -/
def detectSystemStateSpec (hb : HeartbeatFile) (uptime : Int) (now : Int)
    (alive : Bool) : SystemState :=
  match hb with
  | .absent => .firstRun
  | .unreadable => .restart
  | .unparseable => .restart
  | .parsed t =>
    let g := now - t
    if uptime < g then .restart
    else if twoHours < g ∧ g < uptime then .sleep
    else if alive = false ∧ fiveMinutes < g then .crash
    else .normal

/-! ### Launcher (`internal/process/launcher.go`) -/

/-- The body of the `for` loop of `launchWithRetry` (`launcher.go`), walking the
attempt numbers `[1, …, maxRetries]`.  `launch` gives the outcome
`launchApplication` would produce on each attempt; `fail` is the result
built after the loop when every attempt failed. -/
def launchWithRetryLoop (launch : Nat → LaunchResult)
    (fail : LaunchResult) : List Nat → LaunchResult
  | [] => fail
  | attempt :: rest =>
    let result := { launch attempt with RetryCount := attempt }
    if result.Success then result
    else launchWithRetryLoop launch fail rest

/-- Method `launchWithRetry` of `launcher.go`.  `maxRetries` is
`config.GlobalConfig.MaxRetryAttempts` and `now` the clock reading used
for the failure record's `LaunchTime`. -/
def launchWithRetry (launch : Nat → LaunchResult) (proc : ProcessInfo)
    (now : Int) (maxRetries : Nat) : LaunchResult :=
  launchWithRetryLoop launch
    { AppName := proc.Name
      Success := false
      PID := 0
      LaunchTime := now
      RetryCount := maxRetries
      ErrorMsg := "Failed after " ++ toString maxRetries ++ " attempts" }
    (List.range' 1 maxRetries)

/-! ### SortByMemoryUsage (part_004) -/

/-- Inner loop of `SortByMemoryUsage` (part_004): `m` adjacent
compare-and-swap steps (`j = 0 … m-1`, swapping when
`sorted[j].MemoryMB < sorted[j+1].MemoryMB`), walking from the head; the
element carried rightward is exactly the loser of each comparison. -/
def bubbleInner : Nat → List ProcessInfo → List ProcessInfo
  | 0, l => l
  | _ + 1, [] => []
  | _ + 1, [a] => [a]
  | m + 1, a :: b :: t =>
    if a.MemoryMB < b.MemoryMB then b :: bubbleInner m (a :: t)
    else a :: bubbleInner m (b :: t)

/-- Outer loop of `SortByMemoryUsage` (part_004): with `k` passes left the
next pass performs `k` comparisons (the source pass `i` performs
`n-i-1` comparisons, `i = 0 … n-2`). -/
def bubbleOuter : Nat → List ProcessInfo → List ProcessInfo
  | 0, l => l
  | k + 1, l => bubbleOuter k (bubbleInner (k + 1) l)

/-- Function `SortByMemoryUsage` (part_004) as a value: bubble sort, descending by
`MemoryMB`, on a copy of the input. -/
def SortByMemoryUsage (processes : List ProcessInfo) : List ProcessInfo :=
  bubbleOuter (processes.length - 1) processes

/-- A heap of process-record arrays, for the aliasing question of
`SortByMemoryUsage`: Go slices become indices into the heap. -/
abbrev Heap := List (List ProcessInfo)

/-- Function `SortByMemoryUsage` (part_004) at the heap level.  `sorted := make(…)`
plus `copy(sorted, processes)` allocates the fresh cell `h.length` holding
a copy of the argument's contents; the two swap loops write only to that
fresh cell; the returned slice is the fresh cell. -/
def sortByMemoryUsageHeap (h : Heap) (p : Nat) : Heap × Nat :=
  let processes := h.getD p []
  let fresh := h.length
  let h1 := h ++ [processes]
  let h2 := h1.set fresh (bubbleOuter ((h1.getD fresh []).length - 1) (h1.getD fresh []))
  (h2, fresh)

/-! ### RestoreApplications (`internal/process/launcher.go`) -/

/-- The loop over the sorted process records in
`RestoreApplications`.  `running` is `isApplicationRunning` on the
process name; `launch proc` gives `launchApplication`'s outcome per
attempt; `results` is the launcher's accumulated `al.results`. -/
def restoreLoop (running : String → Bool)
    (launch : ProcessInfo → Nat → LaunchResult) (now : Int)
    (maxRetries : Nat) : List ProcessInfo → List LaunchResult → List LaunchResult
  | [], results => results
  | proc :: rest, results =>
    if running proc.ProcessName then
      restoreLoop running launch now maxRetries rest results
    else
      restoreLoop running launch now maxRetries rest
        (results ++ [launchWithRetry (launch proc) proc now maxRetries])

/-- Method `RestoreApplications` of `launcher.go` on a fresh launcher
(`al.results` starts empty). -/
def restoreApplications (running : String → Bool)
    (launch : ProcessInfo → Nat → LaunchResult) (now : Int)
    (maxRetries : Nat) (processes : List ProcessInfo) : List LaunchResult :=
  restoreLoop running launch now maxRetries (SortByMemoryUsage processes) []

/-! ### CrashTracker (part_002) -/

/-- Go struct `CrashTracker` (part_002); the `stateFile` only feeds
`Save` and `Load`, whose file handling is outside this model. -/
structure CrashTracker where
  crashes : List Int
  maxCrashes : Nat
  windowPeriod : Int
  isDisabled : Bool
deriving Repr, DecidableEq

/-- Nanoseconds in `1 * time.Hour`. -/
def nsPerHour : Int := 60 * nsPerMinute

/-- The tracker `NewAutoStartManager` builds (part_002) — `maxCrashes: 3`,
`windowPeriod: 1 * time.Hour`. -/
def newCrashTracker : CrashTracker :=
  { crashes := [], maxCrashes := 3, windowPeriod := nsPerHour, isDisabled := false }

/-- Method `cleanOldCrashes` (part_002) — keeps crashes strictly after
`now - windowPeriod` (`crashTime.After(cutoff)`). -/
def cleanOldCrashes (now : Int) (ct : CrashTracker) : CrashTracker :=
  let cutoff := now - ct.windowPeriod
  { ct with crashes := ct.crashes.filter (fun crashTime => decide (cutoff < crashTime)) }

/-- Method `RecordCrash` (part_002); the trailing `Save` only writes the
state file. -/
def recordCrash (now : Int) (ct : CrashTracker) : CrashTracker :=
  cleanOldCrashes now { ct with crashes := ct.crashes ++ [now] }

/-- Method `ShouldDisableAutoStart` (part_002); returns the answer and
the updated tracker (the method mutates the receiver). -/
def shouldDisableAutoStart (now : Int) (ct : CrashTracker) : Bool × CrashTracker :=
  if ct.isDisabled then (true, ct)
  else
    let ct1 := cleanOldCrashes now ct
    if ct1.maxCrashes ≤ ct1.crashes.length then (true, { ct1 with isDisabled := true })
    else (false, ct1)

/-! ### Concrete example values used by the evaluation theorems -/

/-- A storage rooted at a directory named cp. -/
def s0 : Storage := { baseDir := "cp" }

/-- A sample detected process. -/
def p0 : ProcessInfo :=
  { PID := 1, Name := "Arc", ProcessName := "arc", MemoryMB := 100,
    WindowState := "normal", IsRunning := true }

/-- A sample checkpoint with a timestamp-shaped identifier. -/
def cp0 : Checkpoint :=
  { ID := "2024-01-01_00-00-00", Timestamp := 100, Processes := [p0],
    AppNames := ["Arc"], IsCompressed := false, FilePath := "", FileSize := 0 }

/-- A checkpoint summary with the earlier identifier. -/
def cpOld : Checkpoint :=
  { ID := "2024-01-01_00-00-00", Timestamp := 100, Processes := [], AppNames := [],
    IsCompressed := false, FilePath := "", FileSize := 0 }

/-- A checkpoint summary with the later identifier and a later timestamp. -/
def cpNew : Checkpoint := { cpOld with ID := "2024-01-02_00-00-00", Timestamp := 200 }

/-- A checkpoint summary with the later identifier but the same timestamp
as `cpOld` — a timestamp tie. -/
def cpTieB : Checkpoint := { cpOld with ID := "2024-01-02_00-00-00" }

/-- A concrete instance of the opaque byte transformations, used to
instantiate witnesses. -/
def exCodec : Codec :=
  { serializeCheckpoint := fun c => [c.Processes.length]
    deserializeCheckpoint := fun _ => none
    marshalMetadata := fun m => [m.AppCount, 7]
    unmarshalMetadata := fun _ => none
    checksum := fun data => "h" ++ toString data.length
    compress := fun d => 0 :: d
    decompress := fun d => some d.tail }

/-- A launch oracle that fails on attempts 1 and 2 and succeeds from
attempt 3 on. -/
def exLaunchFailTwice : Nat → LaunchResult := fun i =>
  { AppName := "Arc", Success := decide (3 ≤ i), PID := 2, LaunchTime := 9,
    RetryCount := 0, ErrorMsg := "open failed" }

/-- A launch oracle that always fails. -/
def exLaunchAlwaysFail : Nat → LaunchResult := fun i =>
  { AppName := "Arc", Success := false, PID := 0, LaunchTime := 9,
    RetryCount := 0, ErrorMsg := "open failed" }

/-- First of two process records with equal memory use. -/
def q1 : ProcessInfo :=
  { PID := 11, Name := "Mail", ProcessName := "mail", MemoryMB := 100,
    WindowState := "normal", IsRunning := true }

/-- Second of two process records with equal memory use. -/
def q2 : ProcessInfo :=
  { PID := 12, Name := "Notes", ProcessName := "notes", MemoryMB := 100,
    WindowState := "normal", IsRunning := true }

/-- A launch oracle (per process) that always succeeds. -/
def exLaunchOK : ProcessInfo → Nat → LaunchResult := fun proc i =>
  { AppName := proc.Name, Success := true, PID := 1, LaunchTime := 0,
    RetryCount := 0, ErrorMsg := "" }

/-- An uncompressed checkpoint named x. -/
def ccx : Checkpoint :=
  { ID := "x", Timestamp := 5, Processes := [], AppNames := [],
    IsCompressed := false, FilePath := "", FileSize := 2 }

/-- A file system holding only the record of `ccx`, at the path
`getCheckpointPath` resolves. -/
def exFs8 : FS := [("cp/x.bin", [3, 4])]

/-! ### File-system lemmas -/

/-- Finding a key other than the removed one is unaffected by the
removal filter. -/
theorem find?_filter_ne (q pw : String) (h : q ≠ pw) :
    ∀ fs : FS, (fs.filter (fun e => !(e.1 == pw))).find? (fun e => e.1 == q)
      = fs.find? (fun e => e.1 == q) := by
  intro fs
  induction fs with
  | nil => rfl
  | cons e t ih =>
    by_cases he : e.1 = pw
    · have h1 : (e.1 == pw) = true := by simp [he]
      have h2 : (e.1 == q) = false := by simp [he]; exact Ne.symm h
      simp [List.filter_cons, h1, List.find?_cons, h2, ih]
    · have h1 : (e.1 == pw) = false := by simp [he]
      by_cases he2 : e.1 = q
      · have h2 : (e.1 == q) = true := by simp [he2]
        simp [List.filter_cons, h1, List.find?_cons, h2]
      · have h2 : (e.1 == q) = false := by simp [he2]
        simp [List.filter_cons, h1, List.find?_cons, h2, ih]

/-- Reading back the path just written yields the written data. -/
theorem fsRead_fsWrite_self (fs : FS) (pw : String) (d : Bytes) :
    fsRead (fsWrite fs pw d) pw = some d := by
  simp [fsRead, fsWrite, List.find?_cons]

/-- Writing one path leaves reads of any other path unchanged. -/
theorem fsRead_fsWrite_ne (fs : FS) (pw q : String) (d : Bytes) (h : q ≠ pw) :
    fsRead (fsWrite fs pw d) q = fsRead fs q := by
  have hb : (pw == q) = false := by simp; exact Ne.symm h
  simp only [fsRead, fsWrite, List.find?_cons, hb]
  rw [find?_filter_ne q pw h]

/-- Reading a removed path fails. -/
theorem fsRead_fsRemove_self (fs : FS) (pw : String) :
    fsRead (fsRemove fs pw) pw = none := by
  simp only [fsRead, fsRemove]
  induction fs with
  | nil => rfl
  | cons e t ih =>
    by_cases he : e.1 = pw
    · have h1 : (e.1 == pw) = true := by simp [he]
      simp [List.filter_cons, h1, ih]
    · have h1 : (e.1 == pw) = false := by simp [he]
      simp [List.filter_cons, h1, List.find?_cons, h1, ih]

/-- Removing one path leaves reads of any other path unchanged. -/
theorem fsRead_fsRemove_ne (fs : FS) (pw q : String) (h : q ≠ pw) :
    fsRead (fsRemove fs pw) q = fsRead fs q := by
  simp only [fsRead, fsRemove]
  rw [find?_filter_ne q pw h]

/-- The uncompressed record path differs from the compressed record path
(their lengths differ by 11). -/
theorem originalPath_ne_compressedPath (s : Storage) (id : String) :
    filepathJoin s.baseDir (id ++ ".bin") ≠ filepathJoin s.baseDir (id ++ "_compressed.bin") := by
  intro h
  have hl := congrArg String.length h
  have e1 : (".bin" : String).length = 4 := rfl
  have e2 : ("_compressed.bin" : String).length = 15 := rfl
  simp [filepathJoin, String.length_append, e1, e2] at hl

/-- The metadata sidecar path differs from the compressed record path
(their lengths differ by 1). -/
theorem metadataPath_ne_compressedPath (s : Storage) (id : String) :
    metadataPath s id ≠ filepathJoin s.baseDir (id ++ "_compressed.bin") := by
  intro h
  have hl := congrArg String.length h
  have e1 : (".json" : String).length = 5 := rfl
  have e2 : ("_compressed.bin" : String).length = 15 := rfl
  have e3 : ("metadata" : String).length = 8 := rfl
  have e4 : ("/" : String).length = 1 := rfl
  simp [metadataPath, filepathJoin, String.length_append, e1, e2, e3, e4] at hl
  omega

/-- The metadata sidecar path differs from the uncompressed record path
(their lengths differ by 11). -/
theorem metadataPath_ne_originalPath (s : Storage) (id : String) :
    metadataPath s id ≠ filepathJoin s.baseDir (id ++ ".bin") := by
  intro h
  have hl := congrArg String.length h
  have e1 : (".json" : String).length = 5 := rfl
  have e2 : (".bin" : String).length = 4 := rfl
  have e3 : ("metadata" : String).length = 8 := rfl
  have e4 : ("/" : String).length = 1 := rfl
  simp [metadataPath, filepathJoin, String.length_append, e1, e2, e3, e4] at hl
  omega

/-! ### Claim C1 -/

/-- Claim C1 (code bug): `SaveCheckpoint` builds its file name with
`fmt.Sprint`, not `fmt.Sprintf`, so the record is written to the literal
path `cp/%s.bin2024-01-01_00-00-00` (second conjunct), while
`LoadCheckpoint` resolves `cp/2024-01-01_00-00-00.bin` via
`getCheckpointPath`; loading the identifier just saved therefore fails
with the not-accessible validation error instead of round-tripping —
for every serialization.  This refutes the claimed save/load round trip. -/
theorem save_then_load_fails (codec : Codec) :
    loadCheckpoint codec s0 (saveCheckpoint codec s0 [] cp0).1 cp0.ID
      = .error (.validationFailed .notAccessible)
    ∧ fsRead (saveCheckpoint codec s0 [] cp0).1 "cp/%s.bin2024-01-01_00-00-00"
      = some (codec.serializeCheckpoint cp0) := by
  constructor
  · simp [loadCheckpoint, validateCheckpointFile, getCheckpointPath, fsExists, fsRead,
      fsWrite, loadMetadata, metadataPath, saveCheckpoint, saveMetadata, filepathJoin,
      fmtSprint2, cp0, s0, List.find?, List.filter]
  · simp [fsRead, fsWrite, saveCheckpoint, saveMetadata, metadataPath, filepathJoin,
      fmtSprint2, cp0, s0, List.find?, List.filter]

/-! ### Claim C5 -/

/-- Claim C5 (code bug): after a `SaveCheckpoint` the metadata sidecar
does exist (first conjunct), but corrupting the record that was actually
written — replacing the bytes at `cp/%s.bin2024-01-01_00-00-00` with any
`tampered` contents whatsoever — makes the next `LoadCheckpoint` fail
with the not-accessible error, not with a checksum-mismatch integrity
error: because of the `fmt.Sprint` slip the validator never reads the
written record, so the checksum comparison the claim describes is never
reached. -/
theorem tampered_load (codec : Codec) (tampered : Bytes) :
    (fsRead (saveCheckpoint codec s0 [] cp0).1 (metadataPath s0 cp0.ID)).isSome = true
    ∧ loadCheckpoint codec s0
        (fsWrite (saveCheckpoint codec s0 [] cp0).1 "cp/%s.bin2024-01-01_00-00-00" tampered)
        cp0.ID
      = .error (.validationFailed .notAccessible) := by
  constructor
  · simp [fsRead, fsWrite, saveCheckpoint, saveMetadata, metadataPath, filepathJoin,
      fmtSprint2, cp0, s0, List.find?, List.filter]
  · simp [loadCheckpoint, validateCheckpointFile, getCheckpointPath, fsExists, fsRead,
      fsWrite, loadMetadata, metadataPath, saveCheckpoint, saveMetadata, filepathJoin,
      fmtSprint2, cp0, s0, List.find?, List.filter]

/-! ### Claim C9 -/

/-- Claim C9: every checkpoint `CreateCheckpoint` returns has `AppNames`
equal to the names of its `Processes` position by position (hence equal
lengths), starts uncompressed, and carries exactly the detected process
list — also when that list is empty, in which case an empty checkpoint is
produced rather than an error. -/
theorem createCheckpoint_invariants (codec : Codec) (s : Storage) (fs : FS)
    (processes : List ProcessInfo) (timestamp : Int) (formatID : Int → String) :
    ((createCheckpoint codec s fs processes timestamp formatID).2.AppNames
        = (createCheckpoint codec s fs processes timestamp formatID).2.Processes.map
            (fun proc => proc.Name))
    ∧ (createCheckpoint codec s fs processes timestamp formatID).2.AppNames.length
        = (createCheckpoint codec s fs processes timestamp formatID).2.Processes.length
    ∧ (createCheckpoint codec s fs processes timestamp formatID).2.IsCompressed = false
    ∧ (createCheckpoint codec s fs processes timestamp formatID).2.Processes = processes := by
  refine ⟨?_, ?_, ?_, ?_⟩ <;> simp [createCheckpoint, saveCheckpoint]

/-! ### Claim C2 -/

/-- Claim C2: on every input whose heartbeat file, when it parses at all,
parses to a non-zero time, `DetectSystemState` classifies exactly as the
specification's priority list: missing heartbeat first (FirstRun), then
unreadable or unparseable heartbeat (Restart), then uptime below the
heartbeat gap (Restart), then a gap above two hours with larger uptime
(Sleep), then a dead previous pid with a gap above five minutes (Crash),
otherwise Normal. -/
theorem detect_matches_spec (hb : HeartbeatFile) (u now : Int) (alive : Bool)
    (h : ∀ t, hb = .parsed t → t ≠ 0) :
    detectSystemState hb u false now alive = detectSystemStateSpec hb u now alive := by
  cases hb with
  | absent => rfl
  | unreadable => rfl
  | unparseable => rfl
  | parsed t =>
    have ht : t ≠ 0 := h t rfl
    simp [detectSystemState, detectSystemStateSpec, isFirstRun, getLastHeartbeatTime, ht]

/-- Witness for `detect_matches_spec`, at a parsed heartbeat of time 1
with a two-minute gap and a five-minute uptime. -/
theorem detect_matches_spec_witness :
    (∀ t, HeartbeatFile.parsed 1 = HeartbeatFile.parsed t → t ≠ 0)
    ∧ detectSystemState (.parsed 1) (5 * nsPerMinute) false (1 + 2 * nsPerMinute) true
        = detectSystemStateSpec (.parsed 1) (5 * nsPerMinute) (1 + 2 * nsPerMinute) true :=
  ⟨fun t h => by cases h; decide,
   detect_matches_spec _ _ _ _ (fun t h => by cases h; decide)⟩

/-! ### Claim C3 -/

/-- Updating the retry counter of a launch outcome leaves its success
flag unchanged. -/
theorem retryCount_set_success (launch : Nat → LaunchResult) (a v : Nat) :
    ({ launch a with RetryCount := v }).Success = (launch a).Success := rfl

/-- If every attempt in the walked range fails, the retry loop returns
the prepared failure record. -/
theorem loop_all_fail (launch : Nat → LaunchResult) (fail : LaunchResult) :
    ∀ (len start : Nat), (∀ i, start ≤ i → i < start + len → (launch i).Success = false) →
      launchWithRetryLoop launch fail (List.range' start len) = fail := by
  intro len
  induction len with
  | zero => intro start h; rfl
  | succ n ih =>
    intro start h
    rw [List.range'_succ]
    have hs : (launch start).Success = false := h start le_rfl (by omega)
    simp only [launchWithRetryLoop, retryCount_set_success, hs]
    exact ih (start + 1) (fun i h1 h2 => h i (by omega) (by omega))

/-- If attempts before `k` fail and attempt `k` succeeds, the retry loop
returns attempt `k`'s outcome with its retry counter set to `k`. -/
theorem loop_succeeds_at (launch : Nat → LaunchResult) (fail : LaunchResult) :
    ∀ (len start k : Nat), start ≤ k → k < start + len →
      (∀ i, start ≤ i → i < k → (launch i).Success = false) →
      (launch k).Success = true →
      launchWithRetryLoop launch fail (List.range' start len)
        = { launch k with RetryCount := k } := by
  intro len
  induction len with
  | zero => intro start k h1 h2; omega
  | succ n ih =>
    intro start k h1 h2 hfail hsucc
    rw [List.range'_succ]
    by_cases hsk : start = k
    · subst hsk
      simp [launchWithRetryLoop, retryCount_set_success, hsucc]
    · have hs : (launch start).Success = false := hfail start le_rfl (by omega)
      simp only [launchWithRetryLoop, retryCount_set_success, hs]
      exact ih (start + 1) k (by omega) (by omega)
        (fun i hi1 hi2 => hfail i (by omega) hi2) hsucc

/-- The retry loop only consults the launch oracle on the walked range. -/
theorem loop_agree (launchC launchB : Nat → LaunchResult) (fail : LaunchResult) :
    ∀ (len start : Nat), (∀ i, start ≤ i → i < start + len → launchC i = launchB i) →
      launchWithRetryLoop launchC fail (List.range' start len)
        = launchWithRetryLoop launchB fail (List.range' start len) := by
  intro len
  induction len with
  | zero => intro start h; rfl
  | succ n ih =>
    intro start h
    rw [List.range'_succ]
    have he : launchC start = launchB start := h start le_rfl (by omega)
    simp only [launchWithRetryLoop, he]
    split
    · rfl
    · exact ih (start + 1) (fun i h1 h2 => h i (by omega) (by omega))

/-- Claim C3: with failures on the first `k-1` attempts and success on
attempt `k ≤ maxRetries`, `launchWithRetry` returns that success with
`RetryCount = k`; when every attempt up to `maxRetries` fails it returns
a failure record with `RetryCount = maxRetries` and a message naming the
attempt count; and the result never depends on what the launch mechanism
would do beyond attempt `maxRetries` (no further attempt occurs). -/
theorem launchWithRetry_semantics (maxRetries k : Nat)
    (launchA launchB launchC : Nat → LaunchResult) (proc : ProcessInfo) (now : Int)
    (hk1 : 1 ≤ k) (hk2 : k ≤ maxRetries)
    (hAfail : ∀ i, i < k → (launchA i).Success = false)
    (hAsucc : (launchA k).Success = true)
    (hBfail : ∀ i, i ≤ maxRetries → (launchB i).Success = false)
    (hAgree : ∀ i, i ≤ maxRetries → launchC i = launchB i) :
    launchWithRetry launchA proc now maxRetries = { launchA k with RetryCount := k }
    ∧ launchWithRetry launchB proc now maxRetries
        = { AppName := proc.Name, Success := false, PID := 0, LaunchTime := now,
            RetryCount := maxRetries,
            ErrorMsg := "Failed after " ++ toString maxRetries ++ " attempts" }
    ∧ launchWithRetry launchC proc now maxRetries
        = launchWithRetry launchB proc now maxRetries := by
  refine ⟨?_, ?_, ?_⟩
  · exact loop_succeeds_at launchA _ maxRetries 1 k hk1 (by omega)
      (fun i h1 h2 => hAfail i h2) hAsucc
  · exact loop_all_fail launchB _ maxRetries 1 (fun i h1 h2 => hBfail i (by omega))
  · exact loop_agree launchC launchB _ maxRetries 1 (fun i h1 h2 => hAgree i (by omega))

/-- Witness for `launchWithRetry_semantics`: three allowed attempts, a
mechanism failing twice then succeeding, and an always-failing one. -/
theorem launchWithRetry_semantics_witness :
    ((1 : Nat) ≤ 3 ∧ (3 : Nat) ≤ 3
      ∧ (∀ i, i < 3 → (exLaunchFailTwice i).Success = false)
      ∧ (exLaunchFailTwice 3).Success = true
      ∧ (∀ i, i ≤ 3 → (exLaunchAlwaysFail i).Success = false)
      ∧ (∀ i, i ≤ 3 → exLaunchAlwaysFail i = exLaunchAlwaysFail i))
    ∧ launchWithRetry exLaunchFailTwice p0 9 3
        = { exLaunchFailTwice 3 with RetryCount := 3 } :=
  ⟨⟨by decide, by decide, by decide, by decide, by decide, by decide⟩,
   (launchWithRetry_semantics 3 3 exLaunchFailTwice exLaunchAlwaysFail exLaunchAlwaysFail
      p0 9 (by decide) (by decide) (by decide) (by decide) (by decide) (by decide)).1⟩

/-! ### Claim C4 -/

/-- The crash window length is positive. -/
theorem nsPerHour_pos : 0 < nsPerHour := by decide

/-- Claim C4: on the tracker built with three allowed crashes per hour,
recording three crashes inside the window makes `ShouldDisableAutoStart`
answer true, recording only two leaves it false; when not yet disabled
the answer is exactly whether the crashes still inside the window reach
`maxCrashes` (older ones are pruned from the count); and once
`isDisabled` is set the answer is true with the tracker untouched,
regardless of its crash list. -/
theorem crashTracker_semantics (t1 t2 t3 now : Int) (ct2 ct3 : CrashTracker)
    (h12 : t1 ≤ t2) (h23 : t2 ≤ t3) (h3n : t3 ≤ now)
    (hwin : now - nsPerHour < t1)
    (hnd : ct2.isDisabled = false) (hd : ct3.isDisabled = true) :
    (shouldDisableAutoStart now (recordCrash t3 (recordCrash t2 (recordCrash t1 newCrashTracker)))).1 = true
    ∧ (shouldDisableAutoStart now (recordCrash t2 (recordCrash t1 newCrashTracker))).1 = false
    ∧ (shouldDisableAutoStart now ct2).1
        = decide (ct2.maxCrashes ≤ (ct2.crashes.filter (fun t => decide (now - ct2.windowPeriod < t))).length)
    ∧ shouldDisableAutoStart now ct3 = (true, ct3) := by
  have e1 : decide (t1 - nsPerHour < t1) = true := decide_eq_true (by have := nsPerHour_pos; omega)
  have e21 : decide (t2 - nsPerHour < t1) = true := decide_eq_true (by omega)
  have e22 : decide (t2 - nsPerHour < t2) = true := decide_eq_true (by have := nsPerHour_pos; omega)
  have e31 : decide (t3 - nsPerHour < t1) = true := decide_eq_true (by omega)
  have e32 : decide (t3 - nsPerHour < t2) = true := decide_eq_true (by omega)
  have e33 : decide (t3 - nsPerHour < t3) = true := decide_eq_true (by have := nsPerHour_pos; omega)
  have en1 : decide (now - nsPerHour < t1) = true := decide_eq_true hwin
  have en2 : decide (now - nsPerHour < t2) = true := decide_eq_true (by omega)
  have en3 : decide (now - nsPerHour < t3) = true := decide_eq_true (by omega)
  refine ⟨?_, ?_, ?_, ?_⟩
  · simp [recordCrash, cleanOldCrashes, newCrashTracker, shouldDisableAutoStart,
      List.filter_cons, e1, e21, e22, e31, e32, e33, en1, en2, en3, nsPerHour_pos]
  · simp [recordCrash, cleanOldCrashes, newCrashTracker, shouldDisableAutoStart,
      List.filter_cons, e1, e21, e22, en1, en2, nsPerHour_pos]
  · by_cases hc : ct2.maxCrashes ≤ (ct2.crashes.filter (fun t => decide (now - ct2.windowPeriod < t))).length
    · simp [shouldDisableAutoStart, cleanOldCrashes, hnd, hc]
    · simp [shouldDisableAutoStart, cleanOldCrashes, hnd, hc]
  · simp [shouldDisableAutoStart, hd]

/-- Witness for `crashTracker_semantics`: crashes at 10, 20 and 30
checked at time 100, well inside the hour window. -/
theorem crashTracker_semantics_witness :
    ((10 : Int) ≤ 20 ∧ (20 : Int) ≤ 30 ∧ (30 : Int) ≤ 100 ∧ (100 : Int) - nsPerHour < 10
      ∧ newCrashTracker.isDisabled = false
      ∧ ({ newCrashTracker with isDisabled := true } : CrashTracker).isDisabled = true)
    ∧ (shouldDisableAutoStart 100 (recordCrash 30 (recordCrash 20 (recordCrash 10 newCrashTracker)))).1 = true :=
  ⟨⟨by decide, by decide, by decide, by decide, by decide, by decide⟩,
   (crashTracker_semantics 10 20 30 100 newCrashTracker { newCrashTracker with isDisabled := true }
      (by decide) (by decide) (by decide) (by decide) (by decide) (by decide)).1⟩

/-! ### Claim C6 -/

/-- One insertion step of `sort.Slice` permutes. -/
theorem sortSliceInsert_perm (less : Checkpoint → Checkpoint → Bool) (a : Checkpoint) :
    ∀ l, (sortSliceInsert less a l).Perm (a :: l) := by
  intro l
  induction l with
  | nil => exact List.Perm.refl _
  | cons b t ih =>
    simp only [sortSliceInsert]
    by_cases hb : less b a = true
    · rw [if_pos hb]
      exact (ih.cons b).trans (List.Perm.swap a b t)
    · rw [if_neg hb]

/-- The `sort.Slice` model returns a permutation of its input. -/
theorem sortSlice_perm (less : Checkpoint → Checkpoint → Bool) :
    ∀ l, (sortSlice less l).Perm l := by
  intro l
  induction l with
  | nil => exact List.Perm.refl _
  | cons a t ih =>
    exact ((sortSliceInsert_perm less a _).trans (ih.cons a))

/-- Inserting into a timestamp-descending list keeps it descending. -/
theorem sortSliceInsert_sorted (a : Checkpoint) :
    ∀ l, List.Sorted (fun x y => y.Timestamp ≤ x.Timestamp) l →
      List.Sorted (fun x y => y.Timestamp ≤ x.Timestamp) (sortSliceInsert newerFirst a l) := by
  intro l
  induction l with
  | nil => intro _; simp [sortSliceInsert]
  | cons b t ih =>
    intro hs
    rw [List.sorted_cons] at hs
    obtain ⟨hb, ht⟩ := hs
    simp only [sortSliceInsert]
    by_cases hba : a.Timestamp < b.Timestamp
    · have : newerFirst b a = true := by simp [newerFirst, hba]
      rw [if_pos this, List.sorted_cons]
      constructor
      · intro y hy
        rcases List.mem_cons.mp ((sortSliceInsert_perm newerFirst a t).mem_iff.mp hy) with h | h
        · subst h; omega
        · exact hb y h
      · exact ih ht
    · have : ¬ (newerFirst b a = true) := by simp [newerFirst]; omega
      rw [if_neg this, List.sorted_cons]
      refine ⟨?_, by rw [List.sorted_cons]; exact ⟨hb, ht⟩⟩
      intro y hy
      rcases List.mem_cons.mp hy with h | h
      · subst h; omega
      · have := hb y h; omega

/-- The `sort.Slice` model with the timestamp comparator sorts
descending. -/
theorem sortSlice_sorted :
    ∀ l, List.Sorted (fun x y => y.Timestamp ≤ x.Timestamp) (sortSlice newerFirst l) := by
  intro l
  induction l with
  | nil => simp [sortSlice]
  | cons a t ih => exact sortSliceInsert_sorted a _ ih

/-- Claim C6 counterexample: two checkpoint summaries with equal
timestamps, listed in the directory order `os.ReadDir` produces
(identifier ascending).  For a two-element slice `sort.Slice` runs
insertion sort, so the model is exact here: the `Timestamp.After`
comparator sees no strict order and the pair stays put, so the entry
with the lexicographically smaller (older-looking) identifier comes
first — the tie is not broken by identifier (which would require the
later identifier first), and the order is not strictly newest-first
either, refuting the claim as stated. -/
theorem tie_break_counterexample :
    (getAvailableCheckpoints [cpOld, cpTieB]).Checkpoints = [cpOld, cpTieB]
    ∧ cpOld.Timestamp = cpTieB.Timestamp
    ∧ cpOld.ID.data < cpTieB.ID.data
    ∧ cpOld ≠ cpTieB
    ∧ (getAvailableCheckpoints [cpOld, cpTieB]).Checkpoints ≠ [cpTieB, cpOld] := by
  refine ⟨by decide, by decide, by decide, by decide, by decide⟩

/-- Claim C6 as amended: `GetAvailableCheckpoints` returns a permutation
of the stored summaries sorted by timestamp descending — non-strictly,
equal-timestamp entries in an order the code leaves unspecified, with no
identifier tie-break — with `CompressedCount` counting the entries whose
compressed flag is set, `TotalCount` the number of entries, and an empty
`LastUsed`; on the two sample checkpoints with identifiers 2024-01-01
and 2024-01-02 and matching timestamps, the latter sorts first.  Each
conjunct is part of the `sort.Slice` contract (or follows from it via
the permutation), so none depends on how the model determinizes tie
order. -/
theorem getAvailableCheckpoints_sorted_desc (checkpoints : List Checkpoint) :
    ((getAvailableCheckpoints checkpoints).Checkpoints).Perm checkpoints
    ∧ List.Sorted (fun a b => b.Timestamp ≤ a.Timestamp)
        (getAvailableCheckpoints checkpoints).Checkpoints
    ∧ (getAvailableCheckpoints checkpoints).CompressedCount
        = checkpoints.countP (fun cp => cp.IsCompressed)
    ∧ (getAvailableCheckpoints checkpoints).TotalCount = checkpoints.length
    ∧ (getAvailableCheckpoints checkpoints).LastUsed = ""
    ∧ (getAvailableCheckpoints [cpOld, cpNew]).Checkpoints = [cpNew, cpOld] := by
  refine ⟨sortSlice_perm newerFirst checkpoints, sortSlice_sorted checkpoints,
    List.Perm.countP_eq _ (sortSlice_perm newerFirst checkpoints),
    List.Perm.length_eq (sortSlice_perm newerFirst checkpoints), rfl, by decide⟩

/-! ### Bubble sort lemmas (part_004) -/

/-- One inner pass of the bubble sort permutes (fuel-indexed form). -/
theorem bubbleInner_perm : ∀ (n : Nat) (m : Nat) (l : List ProcessInfo),
    l.length ≤ n → (bubbleInner m l).Perm l := by
  intro n
  induction n with
  | zero =>
    intro m l hl
    have : l = [] := List.length_eq_zero.mp (by omega)
    subst this
    cases m <;> exact List.Perm.refl _
  | succ n ih =>
    intro m l hl
    cases m with
    | zero => exact List.Perm.refl _
    | succ m1 =>
      cases l with
      | nil => exact List.Perm.refl _
      | cons p l1 =>
        cases l1 with
        | nil => exact List.Perm.refl _
        | cons q t =>
          simp only [bubbleInner]
          by_cases hpq : p.MemoryMB < q.MemoryMB
          · rw [if_pos hpq]
            have h1 : (bubbleInner m1 (p :: t)).Perm (p :: t) :=
              ih m1 (p :: t) (by simp at hl ⊢; omega)
            exact ((h1.cons q).trans (List.Perm.swap p q t))
          · rw [if_neg hpq]
            have h1 : (bubbleInner m1 (q :: t)).Perm (q :: t) :=
              ih m1 (q :: t) (by simp at hl ⊢; omega)
            exact h1.cons p

/-- A full inner pass ends with a minimal element in last position. -/
theorem bubbleInner_last_min : ∀ (n : Nat) (m : Nat) (l : List ProcessInfo),
    l.length ≤ n → l.length ≤ m + 1 → l ≠ [] →
    ∃ l2 x, bubbleInner m l = l2 ++ [x] ∧ ∀ z ∈ l, x.MemoryMB ≤ z.MemoryMB := by
  intro n
  induction n with
  | zero =>
    intro m l hl hm hne
    exact absurd (List.length_eq_zero.mp (by omega)) hne
  | succ n ih =>
    intro m l hl hm hne
    cases l with
    | nil => exact absurd rfl hne
    | cons p l1 =>
      cases l1 with
      | nil =>
        refine ⟨[], p, ?_, ?_⟩
        · cases m <;> rfl
        · intro z hz; simp at hz; subst hz; omega
      | cons q t =>
        obtain ⟨m1, rfl⟩ : ∃ m1, m = m1 + 1 := ⟨m - 1, by simp at hm; omega⟩
        simp only [bubbleInner]
        by_cases hpq : p.MemoryMB < q.MemoryMB
        · rw [if_pos hpq]
          obtain ⟨l2, x, heq, hmin⟩ := ih m1 (p :: t)
            (by simp at hl ⊢; omega) (by simp at hm ⊢; omega) (by simp)
          refine ⟨q :: l2, x, by rw [heq]; rfl, ?_⟩
          intro z hz
          have hxp : x.MemoryMB ≤ p.MemoryMB := hmin p (by simp)
          rcases List.mem_cons.mp hz with h | h
          · subst h; omega
          rcases List.mem_cons.mp h with h2 | h2
          · subst h2; omega
          · exact hmin z (by simp [h2])
        · rw [if_neg hpq]
          obtain ⟨l2, x, heq, hmin⟩ := ih m1 (q :: t)
            (by simp at hl ⊢; omega) (by simp at hm ⊢; omega) (by simp)
          refine ⟨p :: l2, x, by rw [heq]; rfl, ?_⟩
          intro z hz
          have hxq : x.MemoryMB ≤ q.MemoryMB := hmin q (by simp)
          rcases List.mem_cons.mp hz with h | h
          · subst h; omega
          · exact hmin z h

/-- An inner pass never disturbs a trailing element that is minimal. -/
theorem bubbleInner_append_min : ∀ (n : Nat) (m : Nat) (l : List ProcessInfo) (x : ProcessInfo),
    l.length ≤ n → (∀ z ∈ l, x.MemoryMB ≤ z.MemoryMB) →
    bubbleInner m (l ++ [x]) = bubbleInner m l ++ [x] := by
  intro n
  induction n with
  | zero =>
    intro m l x hl hmin
    have : l = [] := List.length_eq_zero.mp (by omega)
    subst this
    cases m <;> rfl
  | succ n ih =>
    intro m l x hl hmin
    cases m with
    | zero => rfl
    | succ m1 =>
      cases l with
      | nil => rfl
      | cons p l1 =>
        cases l1 with
        | nil =>
          have hpx : ¬ p.MemoryMB < x.MemoryMB := by
            have := hmin p (by simp); omega
          simp only [List.cons_append, List.nil_append, bubbleInner]
          rw [if_neg hpx]
          cases m1 <;> rfl
        | cons q t =>
          have hrec : ∀ (w : ProcessInfo), x.MemoryMB ≤ w.MemoryMB → (∀ z ∈ t, x.MemoryMB ≤ z.MemoryMB) →
              bubbleInner m1 ((w :: t) ++ [x]) = bubbleInner m1 (w :: t) ++ [x] :=
            fun w hw ht => ih m1 (w :: t) x (by simp at hl ⊢; omega)
              (fun z hz => by rcases List.mem_cons.mp hz with h | h
                              · subst h; exact hw
                              · exact ht z h)
          have hxp : x.MemoryMB ≤ p.MemoryMB := hmin p (by simp)
          have hxq : x.MemoryMB ≤ q.MemoryMB := hmin q (by simp)
          have hxt : ∀ z ∈ t, x.MemoryMB ≤ z.MemoryMB := fun z hz => hmin z (by simp [hz])
          simp only [List.cons_append, bubbleInner, List.append_eq]
          by_cases hpq : p.MemoryMB < q.MemoryMB
          · rw [if_pos hpq, if_pos hpq]
            have h1 := hrec p hxp hxt
            simp only [List.cons_append, List.append_eq] at h1
            rw [h1]
            rfl
          · rw [if_neg hpq, if_neg hpq]
            have h1 := hrec q hxq hxt
            simp only [List.cons_append, List.append_eq] at h1
            rw [h1]
            rfl

/-- One inner pass of the bubble sort permutes. -/
theorem bubbleInner_perm' (m : Nat) (l : List ProcessInfo) : (bubbleInner m l).Perm l :=
  bubbleInner_perm l.length m l le_rfl

/-- The outer bubble sort loop permutes. -/
theorem bubbleOuter_perm (k : Nat) : ∀ l, (bubbleOuter k l).Perm l := by
  induction k with
  | zero => intro l; exact List.Perm.refl _
  | succ k ih =>
    intro l
    exact (ih (bubbleInner (k + 1) l)).trans (bubbleInner_perm' (k + 1) l)

/-- The outer loop never disturbs a trailing element that is minimal. -/
theorem bubbleOuter_append_min (k : Nat) :
    ∀ (l : List ProcessInfo) (x : ProcessInfo), (∀ z ∈ l, x.MemoryMB ≤ z.MemoryMB) →
      bubbleOuter k (l ++ [x]) = bubbleOuter k l ++ [x] := by
  induction k with
  | zero => intro l x hmin; rfl
  | succ k ih =>
    intro l x hmin
    simp only [bubbleOuter]
    rw [bubbleInner_append_min l.length (k + 1) l x le_rfl hmin]
    exact ih (bubbleInner (k + 1) l) x
      (fun z hz => hmin z ((bubbleInner_perm' (k + 1) l).mem_iff.mp hz))

/-- With enough passes the bubble sort yields a memory-descending list. -/
theorem bubbleOuter_sorted (k : Nat) :
    ∀ l : List ProcessInfo, l.length ≤ k + 1 →
      List.Sorted (fun a b => b.MemoryMB ≤ a.MemoryMB) (bubbleOuter k l) := by
  induction k with
  | zero =>
    intro l hl
    cases l with
    | nil => simp [bubbleOuter]
    | cons p l1 =>
      cases l1 with
      | nil => simp [bubbleOuter]
      | cons q t => simp at hl
  | succ k ih =>
    intro l hl
    cases l with
    | nil =>
      have h0 : bubbleInner (k + 1) ([] : List ProcessInfo) = [] := rfl
      simp only [bubbleOuter, h0]
      exact ih [] (by simp)
    | cons p l1 =>
      obtain ⟨l2, x, heq, hmin⟩ := bubbleInner_last_min (p :: l1).length (k + 1) (p :: l1)
        le_rfl (by simp at hl ⊢; omega) (by simp)
      have hlen : l2.length ≤ k + 1 := by
        have := congrArg List.length heq
        have hp := (bubbleInner_perm' (k + 1) (p :: l1)).length_eq
        simp at this hp hl
        omega
      have hminl2 : ∀ z ∈ l2, x.MemoryMB ≤ z.MemoryMB := by
        intro z hz
        have hzmem : z ∈ bubbleInner (k + 1) (p :: l1) := by
          rw [heq]; exact List.mem_append.mpr (Or.inl hz)
        exact hmin z ((bubbleInner_perm' (k + 1) (p :: l1)).mem_iff.mp hzmem)
      simp only [bubbleOuter, heq]
      rw [bubbleOuter_append_min k l2 x hminl2]
      rw [List.Sorted, List.pairwise_append]
      refine ⟨ih l2 hlen, by simp, ?_⟩
      intro a ha b hb
      simp at hb
      subst hb
      have haz : a ∈ l2 := (bubbleOuter_perm k l2).mem_iff.mp ha
      have : a ∈ bubbleInner (k + 1) (p :: l1) := by
        rw [heq]; exact List.mem_append.mpr (Or.inl haz)
      exact hmin a ((bubbleInner_perm' (k + 1) (p :: l1)).mem_iff.mp this)

/-- The value of `SortByMemoryUsage` is a permutation of its input. -/
theorem sortByMemoryUsage_perm (l : List ProcessInfo) : (SortByMemoryUsage l).Perm l :=
  bubbleOuter_perm (l.length - 1) l

/-- The value of `SortByMemoryUsage` is descending in `MemoryMB`. -/
theorem sortByMemoryUsage_sorted (l : List ProcessInfo) :
    List.Sorted (fun a b => b.MemoryMB ≤ a.MemoryMB) (SortByMemoryUsage l) :=
  bubbleOuter_sorted (l.length - 1) l (by omega)

/-! ### Claim C10 -/

/-- Claim C10: at the heap level, `SortByMemoryUsage` leaves the cell
backing the caller's slice untouched (the `make`/`copy` pair allocates a
fresh cell, and the swap loops write only there), returns a reference to
that fresh cell — never the argument — and the returned contents are a
permutation of the input ordered descending by `MemoryMB`. -/
theorem sortByMemoryUsage_frame_perm_sorted (h : Heap) (p : Nat) (hp : p < h.length) :
    (sortByMemoryUsageHeap h p).1.getD p [] = h.getD p []
    ∧ (sortByMemoryUsageHeap h p).2 ≠ p
    ∧ (sortByMemoryUsageHeap h p).1.getD (sortByMemoryUsageHeap h p).2 []
        = SortByMemoryUsage (h.getD p [])
    ∧ (SortByMemoryUsage (h.getD p [])).Perm (h.getD p [])
    ∧ List.Sorted (fun a b => b.MemoryMB ≤ a.MemoryMB) (SortByMemoryUsage (h.getD p [])) := by
  have hcell : (h ++ [h.getD p []]).getD h.length [] = h.getD p [] := by
    simp [List.getD_eq_get?, List.get?_append_right]
  refine ⟨?_, ?_, ?_, sortByMemoryUsage_perm _, sortByMemoryUsage_sorted _⟩
  · show ((h ++ [h.getD p []]).set h.length _).getD p [] = h.getD p []
    rw [List.getD_eq_get?, List.get?_set_ne _ _ (by omega), ← List.getD_eq_get?,
      List.getD_eq_get?, List.get?_append hp, ← List.getD_eq_get?]
  · show h.length ≠ p
    omega
  · show ((h ++ [h.getD p []]).set h.length
        (bubbleOuter (((h ++ [h.getD p []]).getD h.length []).length - 1)
          ((h ++ [h.getD p []]).getD h.length []))).getD h.length [] = _
    rw [hcell]
    have hlen : h.length < (h ++ [h.getD p []]).length := by simp
    rw [List.getD_eq_get?, List.get?_set _ _]
    simp [hlen, SortByMemoryUsage]

/-- Witness for `sortByMemoryUsage_frame_perm_sorted`, on a one-cell
heap holding the one-record slice. -/
theorem sortByMemoryUsage_frame_witness :
    (0 : Nat) < ([[p0]] : Heap).length
    ∧ (sortByMemoryUsageHeap [[p0]] 0).1.getD 0 [] = ([[p0]] : Heap).getD 0 [] :=
  ⟨by decide, (sortByMemoryUsage_frame_perm_sorted [[p0]] 0 (by decide)).1⟩

/-! ### Claim C7 -/

/-- The restoration loop appends, in traversal order, one retry result
for each record whose process name is not already running. -/
theorem restoreLoop_append (running : String → Bool)
    (launch : ProcessInfo → Nat → LaunchResult) (now : Int) (maxRetries : Nat) :
    ∀ (l : List ProcessInfo) (acc : List LaunchResult),
      restoreLoop running launch now maxRetries l acc
        = acc ++ (l.filter (fun proc => !(running proc.ProcessName))).map
            (fun proc => launchWithRetry (launch proc) proc now maxRetries) := by
  intro l
  induction l with
  | nil => intro acc; simp [restoreLoop]
  | cons proc rest ih =>
    intro acc
    by_cases hr : running proc.ProcessName
    · simp [restoreLoop, hr, ih]
    · simp [restoreLoop, hr, ih, List.filter_cons]

/-- Claim C7 counterexample: two records with equal `MemoryMB`.  Both
are launched (two results), yet the processing order `[q1, q2]` is not
strictly descending in memory — the adjacent pair ties — so the claimed
strictly-descending processing order is refuted; descending order with
ties is what holds. -/
theorem restore_strict_counterexample :
    SortByMemoryUsage [q1, q2] = [q1, q2]
    ∧ ¬ q2.MemoryMB < q1.MemoryMB
    ∧ (restoreApplications (fun _ => false) exLaunchOK 0 2 [q1, q2]).length = 2
    ∧ q1.MemoryMB = q2.MemoryMB ∧ q1 ≠ q2 := by
  refine ⟨by decide, by decide, by decide, by decide, by decide⟩

/-- Claim C7 as amended: `RestoreApplications` traverses the records in
descending (non-increasing) `MemoryMB` order — a permutation of its
input — skips every record whose process name is already running
without producing a result entry for it, and appends exactly one
`launchWithRetry` result per non-skipped record, in traversal order. -/
theorem restoreApplications_skip_and_order (running : String → Bool)
    (launch : ProcessInfo → Nat → LaunchResult) (now : Int) (maxRetries : Nat)
    (processes : List ProcessInfo) :
    restoreApplications running launch now maxRetries processes
      = ((SortByMemoryUsage processes).filter (fun proc => !(running proc.ProcessName))).map
          (fun proc => launchWithRetry (launch proc) proc now maxRetries)
    ∧ List.Sorted (fun a b => b.MemoryMB ≤ a.MemoryMB) (SortByMemoryUsage processes)
    ∧ (SortByMemoryUsage processes).Perm processes := by
  refine ⟨?_, sortByMemoryUsage_sorted processes, sortByMemoryUsage_perm processes⟩
  rw [restoreApplications, restoreLoop_append]
  simp

/-! ### Claim C8 -/

/-- Claim C8: compressing an uncompressed checkpoint — with the
compressed file not yet present, the original record readable, and the
sidecar (when it loads) carrying the checkpoint's own identifier —
succeeds; it updates the checkpoint in place to compressed, pointing at
the compressed path with the compressed size; the final file system
holds the compressed bytes and no longer the original (the removal
targets only the original path, so the compressed file written before it
survives); and a second call is a no-op returning no error and leaving
the file system and checkpoint exactly as they were. -/
theorem compressCheckpoint_idempotent_updates
    (codec : Codec) (s : Storage) (fs : FS) (c : Checkpoint) (d : Bytes)
    (hnc : c.IsCompressed = false)
    (hne : fsExists fs (filepathJoin s.baseDir (c.ID ++ "_compressed.bin")) = false)
    (hrd : fsRead fs (filepathJoin s.baseDir (c.ID ++ ".bin")) = some d)
    (hmid : ∀ m, loadMetadata codec s fs c.ID = some m → m.ID = c.ID) :
    (compressCheckpoint codec s fs c).2.2 = none
    ∧ (compressCheckpoint codec s fs c).2.1
        = { c with
            IsCompressed := true,
            FilePath := filepathJoin s.baseDir (c.ID ++ "_compressed.bin"),
            FileSize := (codec.compress d).length }
    ∧ fsRead (compressCheckpoint codec s fs c).1
        (filepathJoin s.baseDir (c.ID ++ "_compressed.bin")) = some (codec.compress d)
    ∧ fsRead (compressCheckpoint codec s fs c).1
        (filepathJoin s.baseDir (c.ID ++ ".bin")) = none
    ∧ compressCheckpoint codec s (compressCheckpoint codec s fs c).1
        (compressCheckpoint codec s fs c).2.1
      = ((compressCheckpoint codec s fs c).1, (compressCheckpoint codec s fs c).2.1, none) := by
  have hgp : getCheckpointPath s fs c.ID = filepathJoin s.baseDir (c.ID ++ ".bin") := by
    simp [getCheckpointPath, hne]
  have hmeta1 : loadMetadata codec s
      (fsWrite fs (filepathJoin s.baseDir (c.ID ++ "_compressed.bin")) (codec.compress d)) c.ID
      = loadMetadata codec s fs c.ID := by
    simp only [loadMetadata]
    rw [fsRead_fsWrite_ne _ _ _ _ (metadataPath_ne_compressedPath s c.ID)]
  have hstep : compressCheckpoint codec s fs c
      = (fsRemove
          (match loadMetadata codec s fs c.ID with
            | some m =>
              saveMetadata codec s
                (fsWrite fs (filepathJoin s.baseDir (c.ID ++ "_compressed.bin")) (codec.compress d))
                { m with
                  IsCompressed := true,
                  CompressedSize := (codec.compress d).length,
                  Checksum := codec.checksum (codec.compress d) }
            | none =>
              fsWrite fs (filepathJoin s.baseDir (c.ID ++ "_compressed.bin")) (codec.compress d))
          (filepathJoin s.baseDir (c.ID ++ ".bin")),
        { c with
          IsCompressed := true,
          FilePath := filepathJoin s.baseDir (c.ID ++ "_compressed.bin"),
          FileSize := (codec.compress d).length },
        none) := by
    simp only [compressCheckpoint, hnc, Bool.false_eq_true, if_false, hgp, hrd, hmeta1]
  have hreadC : fsRead (compressCheckpoint codec s fs c).1
      (filepathJoin s.baseDir (c.ID ++ "_compressed.bin")) = some (codec.compress d) := by
    rw [hstep]
    rcases hm : loadMetadata codec s fs c.ID with _ | m
    · simp only [hm]
      rw [fsRead_fsRemove_ne _ _ _ (Ne.symm (originalPath_ne_compressedPath s c.ID))]
      exact fsRead_fsWrite_self _ _ _
    · simp only [hm]
      rw [fsRead_fsRemove_ne _ _ _ (Ne.symm (originalPath_ne_compressedPath s c.ID))]
      have hid : ({ m with
                    IsCompressed := true,
                    CompressedSize := (codec.compress d).length,
                    Checksum := codec.checksum (codec.compress d) } : CheckpointMetadata).ID
          = c.ID := hmid m hm
      rw [saveMetadata, hid]
      rw [fsRead_fsWrite_ne _ _ _ _ (Ne.symm (metadataPath_ne_compressedPath s c.ID))]
      exact fsRead_fsWrite_self _ _ _
  refine ⟨by rw [hstep], by rw [hstep], hreadC, ?_, ?_⟩
  · rw [hstep]
    rcases hm : loadMetadata codec s fs c.ID with _ | m
    · simp only [hm]
      exact fsRead_fsRemove_self _ _
    · simp only [hm]
      exact fsRead_fsRemove_self _ _
  · have hc1 : (compressCheckpoint codec s fs c).2.1.IsCompressed = true := by
      rw [hstep]
    rw [compressCheckpoint, if_pos hc1]

/-- Witness for `compressCheckpoint_idempotent_updates`, on the
checkpoint `ccx` whose record sits at the resolved path with no
metadata sidecar. -/
theorem compressCheckpoint_idempotent_updates_witness :
    (ccx.IsCompressed = false
      ∧ fsExists exFs8 (filepathJoin s0.baseDir (ccx.ID ++ "_compressed.bin")) = false
      ∧ fsRead exFs8 (filepathJoin s0.baseDir (ccx.ID ++ ".bin")) = some [3, 4]
      ∧ (∀ m, loadMetadata exCodec s0 exFs8 ccx.ID = some m → m.ID = ccx.ID))
    ∧ (compressCheckpoint exCodec s0 exFs8 ccx).2.2 = none :=
  ⟨⟨by decide, by decide, by decide, by
      intro m hm
      have hnone : loadMetadata exCodec s0 exFs8 ccx.ID = none := by decide
      rw [hnone] at hm
      cases hm⟩,
   (compressCheckpoint_idempotent_updates exCodec s0 exFs8 ccx [3, 4]
      (by decide) (by decide) (by decide) (by
        intro m hm
        have hnone : loadMetadata exCodec s0 exFs8 ccx.ID = none := by decide
        rw [hnone] at hm
        cases hm)).1⟩

end Respawn
